import Mathlib

/-!
Verification of the course-indexing and progress-reconciliation core
(`courseIndexing` module) of the code-teach backend.

The JavaScript source is shallowly embedded: plain objects become
structures, in-place mutation becomes explicit state passing, `Date`
values become `Nat` timestamps supplied by the caller, database lookups
become `Option` arguments, thrown errors become `Except String`, and the
fire-and-forget `Promise.all` save step of the batch driver becomes an
explicit per-user save outcome function.  Missing/`null`/falsy JS fields
are modelled with `Option` (`none` = absent or falsy).
-/

namespace CodeTeach

/-- A leaf content unit ("submodule").  `id = none` models a missing or
falsy `id` field on the JS object (the `module.id || generate...` check). -/
structure SubModule where
  id : Option String
  order : Nat
  title : String
deriving DecidableEq

/-- A course module: an ordered list of submodules.  `subModules = none`
models a missing or non-array `subModules` field. -/
structure Module where
  id : Option String
  order : Nat
  title : String
  subModules : Option (List SubModule)
deriving DecidableEq

/-- A course document.  `modules = none` models a missing or non-array
`modules` field; `_id` is the Mongo document id rendered as a string. -/
structure Course where
  _id : String
  modules : Option (List Module)
deriving DecidableEq

/-- One row of the flat leaf-descriptor list produced by `indexCourseModules`. -/
structure LeafDescriptor where
  moduleId : String
  moduleOrder : Nat
  moduleTitle : String
  subModuleId : String
  subModuleOrder : Nat
  subModuleTitle : String
deriving DecidableEq

/-- The result of one indexing pass (`totalModules`, `totalSubModules`,
`indexed` exactly as in the JS return value). -/
structure Indexing where
  totalModules : Nat
  totalSubModules : Nat
  indexed : List LeafDescriptor
deriving DecidableEq

/-- `generateModuleId(courseId, moduleOrder)` from the source: the JS
template literal renders the order in decimal, modelled by `Nat.repr`. -/
def generateModuleId (courseId : String) (moduleOrder : Nat) : String :=
  courseId ++ "_module_" ++ Nat.repr moduleOrder

/-- `generateSubModuleId(courseId, moduleOrder, subModuleOrder)` from the source. -/
def generateSubModuleId (courseId : String) (moduleOrder subModuleOrder : Nat) : String :=
  courseId ++ "_module_" ++ Nat.repr moduleOrder ++ "_sub_" ++ Nat.repr subModuleOrder

/-- The inner `forEach` of `indexCourseModules` over one module's submodules:
assigns `id` (keeping an existing truthy one) and `order`, and emits one
`LeafDescriptor` per submodule.  `j` is the 0-based position of the head of
the list inside the whole submodule array. -/
def indexSubModules (courseId : String) (moduleOrder : Nat) (moduleId moduleTitle : String) :
    List SubModule → Nat → List SubModule × List LeafDescriptor
  | [], _ => ([], [])
  | sm :: rest, j =>
    let sid := sm.id.getD (generateSubModuleId courseId moduleOrder (j + 1))
    let r := indexSubModules courseId moduleOrder moduleId moduleTitle rest (j + 1)
    ({ sm with id := some sid, order := j + 1 } :: r.1,
     { moduleId := moduleId, moduleOrder := moduleOrder, moduleTitle := moduleTitle,
       subModuleId := sid, subModuleOrder := j + 1, subModuleTitle := sm.title } :: r.2)

/-- The outer `forEach` of `indexCourseModules` over the module array:
assigns module `id`/`order`, normalises a missing `subModules` field to `[]`,
and concatenates the per-module leaf descriptors.  `i` is the 0-based
position of the head of the list inside the whole module array. -/
def indexModules (courseId : String) : List Module → Nat → List Module × List LeafDescriptor
  | [], _ => ([], [])
  | m :: rest, i =>
    let mid := m.id.getD (generateModuleId courseId (i + 1))
    let subs := m.subModules.getD []
    let rs := indexSubModules courseId (i + 1) mid m.title subs 0
    let rr := indexModules courseId rest (i + 1)
    ({ m with id := some mid, order := i + 1, subModules := some rs.1 } :: rr.1,
     rs.2 ++ rr.2)

/-- `indexCourseModules(course)` from the source.  The JS function mutates
the course object in place and returns the indexing; here it returns the
updated course together with the indexing.  A missing/non-array `modules`
field short-circuits to the empty indexing. -/
def indexCourseModules (course : Course) : Course × Indexing :=
  match course.modules with
  | none => (course, { totalModules := 0, totalSubModules := 0, indexed := [] })
  | some ms =>
    let r := indexModules course._id ms 0
    ({ course with modules := some r.1 },
     { totalModules := ms.length, totalSubModules := r.2.length, indexed := r.2 })

/-- One per-user progress record.  `archived` is read with JS truthiness,
so the initially-absent field is modelled as `false`. -/
structure ProgressEntry where
  moduleId : String
  subModuleId : String
  completed : Bool
  completedAt : Option Nat
  lastVisited : Option Nat
  archived : Bool
  archivedAt : Option Nat
deriving DecidableEq

/-- One enrollment subdocument of a user. -/
structure Enrollment where
  course : String
  enrolledAt : Nat
  lastAccessed : Nat
  progress : Nat
  totalModules : Nat
  completedModules : Nat
  moduleProgress : List ProgressEntry
deriving DecidableEq

/-- A user document, restricted to the enrollment list the core reads and writes. -/
structure User where
  enrollments : List Enrollment
deriving DecidableEq

/-- `Math.round((completed / total) * 100)` for natural `completed`, `total`
with `total > 0`, guarded by the source's `total > 0 ? ... : 0` ternary.
JS `Math.round` rounds half toward positive infinity, so the value is
`floor(100 * completed / total + 1/2)`, written over naturals. -/
def computeProgress (completed total : Nat) : Nat :=
  if 0 < total then (200 * completed + total) / (2 * total) else 0

/-- The progress-entry key test used throughout the source:
`p.moduleId === moduleId && p.subModuleId === subModuleId`. -/
def markKey (p : ProgressEntry) (moduleId subModuleId : String) : Bool :=
  p.moduleId == moduleId && p.subModuleId == subModuleId

/-- In-place mutation of the first entry matching the `(moduleId, subModuleId)`
key, as performed on the object returned by JS `Array.prototype.find`. -/
def updateFirst (f : ProgressEntry → ProgressEntry) (moduleId subModuleId : String) :
    List ProgressEntry → List ProgressEntry
  | [] => []
  | p :: ps =>
    if markKey p moduleId subModuleId then f p :: ps
    else p :: updateFirst f moduleId subModuleId ps

/-- The aggregates returned by `updateSubModuleProgress`. -/
structure MarkResult where
  progress : Nat
  completedModules : Nat
  totalModules : Nat
  subModuleCompleted : Bool
deriving DecidableEq

/-- The enrollment-level body of `updateSubModuleProgress`: find or create
the progress entry, mark it completed on first transition (recomputing the
aggregates from the entry list with the mutation applied), and always touch
`lastVisited` and `lastAccessed`. -/
def updateSubModuleProgressEnr (enr : Enrollment) (moduleId subModuleId : String) (now : Nat) :
    Enrollment × MarkResult :=
  let found := enr.moduleProgress.find? (fun p => markKey p moduleId subModuleId)
  let entries0 :=
    match found with
    | some _ => enr.moduleProgress
    | none =>
      enr.moduleProgress ++
        [{ moduleId := moduleId, subModuleId := subModuleId, completed := false,
           completedAt := none, lastVisited := some now, archived := false, archivedAt := none }]
  let entry0 :=
    match found with
    | some e => e
    | none =>
      { moduleId := moduleId, subModuleId := subModuleId, completed := false,
        completedAt := none, lastVisited := some now, archived := false, archivedAt := none }
  if entry0.completed then
    let entries2 := updateFirst (fun p => { p with lastVisited := some now }) moduleId subModuleId entries0
    ({ enr with moduleProgress := entries2, lastAccessed := now },
     { progress := enr.progress, completedModules := enr.completedModules,
       totalModules := enr.totalModules, subModuleCompleted := true })
  else
    let entries1 := updateFirst (fun p => { p with completed := true, completedAt := some now })
      moduleId subModuleId entries0
    let completedCount := (entries1.filter (fun p => p.completed && !p.archived)).length
    let progress := computeProgress completedCount enr.totalModules
    let entries2 := updateFirst (fun p => { p with lastVisited := some now }) moduleId subModuleId entries1
    ({ enr with moduleProgress := entries2, completedModules := completedCount,
                progress := progress, lastAccessed := now },
     { progress := progress, completedModules := completedCount,
       totalModules := enr.totalModules, subModuleCompleted := true })

/-- In-place mutation of the first enrollment whose `course` matches, as
performed on the object returned by `user.enrollments.find(...)`. -/
def updateFirstEnr (courseId : String) (newEnr : Enrollment) : List Enrollment → List Enrollment
  | [] => []
  | e :: es => if e.course == courseId then newEnr :: es else e :: updateFirstEnr courseId newEnr es

/-- `updateSubModuleProgress(userId, courseId, moduleId, subModuleId)` from
the source.  The `user` argument models the `User.findById` result. -/
def updateSubModuleProgress (user? : Option User) (courseId moduleId subModuleId : String)
    (now : Nat) : Except String (User × MarkResult) :=
  match user? with
  | none => .error "User not found"
  | some user =>
    match user.enrollments.find? (fun e => e.course == courseId) with
    | none => .error "User not enrolled in this course"
    | some enr =>
      let r := updateSubModuleProgressEnr enr moduleId subModuleId now
      .ok ({ enrollments := updateFirstEnr courseId r.1 user.enrollments }, r.2)

/-- The per-user enrollment update inside `updateUserProgressForCourseChange`:
step 1 retains entries whose `subModuleId` is a key of the new-index map and
archives completed stale entries (dropping incomplete stale ones), step 2
appends a fresh incomplete entry for every new-index leaf not preserved, and
the aggregates are recomputed over the updated list.  The map built from
`oldIndexing` is constructed exactly as in the source. -/
def updateEnrollmentForCourseChange (oldIndexing newIndexing : Indexing) (enr : Enrollment)
    (now : Nat) : Enrollment :=
  let oldSubModuleIds := oldIndexing.indexed.map (fun item => item.subModuleId)
  let newSubModuleIds := newIndexing.indexed.map (fun item => item.subModuleId)
  let step1 := enr.moduleProgress.filterMap (fun p =>
    if newSubModuleIds.contains p.subModuleId then some p
    else if p.completed then some { p with archived := true, archivedAt := some now }
    else none)
  let preserved := enr.moduleProgress.filterMap (fun p =>
    if newSubModuleIds.contains p.subModuleId then some p.subModuleId else none)
  let fresh := newIndexing.indexed.filterMap (fun item =>
    if preserved.contains item.subModuleId then none
    else some { moduleId := item.moduleId, subModuleId := item.subModuleId, completed := false,
                completedAt := none, lastVisited := none, archived := false, archivedAt := none })
  let updatedProgress := step1 ++ fresh
  let completedCount := (updatedProgress.filter (fun p => p.completed && !p.archived)).length
  { enr with moduleProgress := updatedProgress,
             totalModules := newIndexing.totalSubModules,
             completedModules := completedCount,
             progress := computeProgress completedCount newIndexing.totalSubModules }

/-- The `(moduleID, leafID)` keys of the active (non-archived) progress
entries of an enrollment. -/
def activeKeys (enr : Enrollment) : List (String × String) :=
  (enr.moduleProgress.filter (fun p => !p.archived)).map (fun p => (p.moduleId, p.subModuleId))

/-- The `(moduleID, leafID)` keys of the leaves of a target indexing. -/
def targetKeys (idx : Indexing) : List (String × String) :=
  idx.indexed.map (fun item => (item.moduleId, item.subModuleId))

/-- One user row of the batch driver: the user id together with the
enrollment found for the course being reconciled (`none` models the
`if (!enrollment) continue` case). -/
structure CUser where
  uid : Nat
  enrollment : Option Enrollment
deriving DecidableEq

/-- The object returned by `updateUserProgressForCourseChange`.  The early
return for an empty user list carries no `details` field, hence the options. -/
structure BatchResult where
  usersUpdated : Nat
  progressUpdated : Nat
  detailsTotal : Option Nat
  detailsOld : Option Nat
deriving DecidableEq

/-- The in-memory mutation the batch loop applies to one user document. -/
def applyCourseChange (oldIndexing newIndexing : Indexing) (now : Nat) (u : CUser) : CUser :=
  match u.enrollment with
  | none => u
  | some enr => { u with enrollment := some (updateEnrollmentForCourseChange oldIndexing newIndexing enr now) }

/-- `updateUserProgressForCourseChange(courseId, oldIndexing, newIndexing)`
from the source.  `users` models the `User.find` result, `saveOk` the
outcome of each user's `save()` call.  All saves are dispatched by
`Promise.all`, so every user whose own save succeeds is persisted, but the
call as a whole rejects as soon as any save fails, and only then; on full
success the JS result object (with no `usersFailed` field) is returned. -/
def updateUsersForCourseChange (oldIndexing newIndexing : Indexing) (users : List CUser)
    (saveOk : Nat → Bool) (now : Nat) : List CUser × Except String BatchResult :=
  if users.length = 0 then
    (users, .ok { usersUpdated := 0, progressUpdated := 0, detailsTotal := none, detailsOld := none })
  else
    let persisted := users.map (fun u =>
      if saveOk u.uid then applyCourseChange oldIndexing newIndexing now u else u)
    let usersUpdated := (users.filter (fun u => u.enrollment.isSome)).length
    let progressUpdated := (users.filterMap (fun u => u.enrollment.map
      (fun enr => (updateEnrollmentForCourseChange oldIndexing newIndexing enr now).moduleProgress.length))).sum
    if users.all (fun u => saveOk u.uid) then
      (persisted, .ok { usersUpdated := usersUpdated, progressUpdated := progressUpdated,
                        detailsTotal := some newIndexing.totalSubModules,
                        detailsOld := some oldIndexing.totalSubModules })
    else
      (persisted, .error "save failed")

/-- The result object of `initializeEnrollmentProgress` (the `totalModules`
field is present only on the fresh-enrollment path). -/
structure EnrollResult where
  alreadyEnrolled : Bool
  enrollment : Enrollment
  totalModules : Option Nat
deriving DecidableEq

/-- `initializeEnrollmentProgress(userId, courseId)` from the source (the
name is shortened here).  `course?`/`user?` model the `findById` results;
`courseId` is the raw id the enrollment stores.  An existing enrollment is
returned unchanged with `alreadyEnrolled = true`; otherwise the course is
indexed and a fresh all-incomplete enrollment is appended and returned. -/
def initEnrollmentProgress (course? : Option Course) (user? : Option User) (courseId : String)
    (now : Nat) : Except String (User × EnrollResult) :=
  match course? with
  | none => .error "Course not found"
  | some course =>
    match user? with
    | none => .error "User not found"
    | some user =>
      match user.enrollments.find? (fun e => e.course == courseId) with
      | some existing =>
        .ok (user, { alreadyEnrolled := true, enrollment := existing, totalModules := none })
      | none =>
        let indexing := (indexCourseModules course).2
        let enrollment : Enrollment :=
          { course := courseId, enrolledAt := now, lastAccessed := now, progress := 0,
            totalModules := indexing.totalSubModules, completedModules := 0,
            moduleProgress := indexing.indexed.map (fun item =>
              { moduleId := item.moduleId, subModuleId := item.subModuleId, completed := false,
                completedAt := none, lastVisited := none, archived := false, archivedAt := none }) }
        .ok ({ enrollments := user.enrollments ++ [enrollment] },
             { alreadyEnrolled := false, enrollment := enrollment,
               totalModules := some indexing.totalSubModules })

/-- The fresh enrollment seeded by `initEnrollmentProgress` on the
not-yet-enrolled path, named so theorems can refer to it. -/
def seedEnrollment (course : Course) (courseId : String) (now : Nat) : Enrollment :=
  { course := courseId, enrolledAt := now, lastAccessed := now, progress := 0,
    totalModules := (indexCourseModules course).2.totalSubModules, completedModules := 0,
    moduleProgress := (indexCourseModules course).2.indexed.map (fun item =>
      { moduleId := item.moduleId, subModuleId := item.subModuleId, completed := false,
        completedAt := none, lastVisited := none, archived := false, archivedAt := none }) }

/-- Big-endian decimal value of a character list, used to invert `Nat.repr`. -/
def digitsToNat : List Char → Nat → Nat
  | [], acc => acc
  | c :: cs, acc => digitsToNat cs (acc * 10 + (c.toNat - 48))

/-! Concrete fixtures used by counterexamples and witnesses. -/

/-- A single completed, active progress entry for leaf `(m1, s1)`. -/
def oneLeafEntry : ProgressEntry :=
  { moduleId := "m1", subModuleId := "s1", completed := true, completedAt := some 1,
    lastVisited := some 1, archived := false, archivedAt := none }

/-- The enrollment state reached by enrolling in a one-leaf course and
completing its only leaf. -/
def c1Enr : Enrollment :=
  { course := "course1", enrolledAt := 0, lastAccessed := 1, progress := 100,
    totalModules := 1, completedModules := 1, moduleProgress := [oneLeafEntry] }

/-- A one-leaf target indexing with leaf key `(m, s)`. -/
def targetMS : Indexing :=
  { totalModules := 1, totalSubModules := 1,
    indexed := [{ moduleId := "m", moduleOrder := 1, moduleTitle := "M",
                  subModuleId := "s", subModuleOrder := 1, subModuleTitle := "S" }] }

/-- An empty indexing, used as the old snapshot. -/
def emptyIdx : Indexing := { totalModules := 0, totalSubModules := 0, indexed := [] }

/-- An enrollment whose only entry is an archived completed entry for `(m, s)`:
the state left behind when leaf `(m, s)` was removed after completion and is
later re-added to the course. -/
def archEnr : Enrollment :=
  { course := "course1", enrolledAt := 0, lastAccessed := 0, progress := 0,
    totalModules := 1, completedModules := 0,
    moduleProgress := [{ moduleId := "m", subModuleId := "s", completed := true,
                         completedAt := some 1, lastVisited := some 1, archived := true,
                         archivedAt := some 2 }] }

/-- A completed active entry for the target leaf `(m, s)`. -/
def entryMS : ProgressEntry :=
  { moduleId := "m", subModuleId := "s", completed := true, completedAt := some 1,
    lastVisited := some 1, archived := false, archivedAt := none }

/-- A completed active entry for a leaf `(mOld, sOld)` absent from `targetMS`. -/
def staleEntry : ProgressEntry :=
  { moduleId := "mOld", subModuleId := "sOld", completed := true, completedAt := some 1,
    lastVisited := some 1, archived := false, archivedAt := none }

/-- An enrollment holding one completed active entry for the target leaf. -/
def c2WitEnr : Enrollment :=
  { course := "course1", enrolledAt := 0, lastAccessed := 0, progress := 100,
    totalModules := 1, completedModules := 1, moduleProgress := [entryMS] }

/-- An enrollment holding one completed active entry for a removed leaf. -/
def c4Enr : Enrollment :=
  { course := "course1", enrolledAt := 0, lastAccessed := 0, progress := 100,
    totalModules := 1, completedModules := 1, moduleProgress := [staleEntry] }

/-- An empty enrollment for `course1`. -/
def emptyEnr : Enrollment :=
  { course := "course1", enrolledAt := 0, lastAccessed := 0, progress := 0,
    totalModules := 0, completedModules := 0, moduleProgress := [] }

/-- Batch user 1 (its save succeeds under `c3SaveOk`). -/
def c3U1 : CUser := { uid := 1, enrollment := some emptyEnr }

/-- Batch user 2 (its save fails under `c3SaveOk`). -/
def c3U2 : CUser := { uid := 2, enrollment := some emptyEnr }

/-- A save outcome under which only user 1's `save()` resolves. -/
def c3SaveOk : Nat → Bool := fun uid => uid == 1

/-- A course whose two submodules both carry the same author-pinned id `X`. -/
def c6Course : Course :=
  { _id := "c",
    modules := some [{ id := none, order := 0, title := "M",
                       subModules := some [{ id := some "X", order := 0, title := "a" },
                                           { id := some "X", order := 0, title := "b" }] }] }

/-- A two-module course with no pinned ids anywhere. -/
def c6WCourse : Course :=
  { _id := "c",
    modules := some [{ id := none, order := 0, title := "M1",
                       subModules := some [{ id := none, order := 0, title := "A" },
                                           { id := none, order := 0, title := "B" }] },
                     { id := none, order := 0, title := "M2",
                       subModules := some [{ id := none, order := 0, title := "C" }] }] }

/-- A one-module, two-leaf course with no pinned ids. -/
def c8Course : Course :=
  { _id := "crs",
    modules := some [{ id := none, order := 0, title := "M1",
                       subModules := some [{ id := none, order := 0, title := "S1" },
                                           { id := none, order := 0, title := "S2" }] }] }

/-- A user with no enrollments at all. -/
def userNoEnrollments : User := { enrollments := [] }

/-- A user already enrolled in `course1`. -/
def userEnrolledEmpty : User := { enrollments := [emptyEnr] }

/-- An enrollment in `course1` with three leaves tracked but no entry yet for
the key the mutator will be called with. -/
def c9Enr : Enrollment :=
  { course := "course1", enrolledAt := 0, lastAccessed := 0, progress := 0,
    totalModules := 3, completedModules := 0, moduleProgress := [] }

/-- A user enrolled in `course1` via `c9Enr`. -/
def c9User : User := { enrollments := [c9Enr] }

/-!  Theorems.  -/

/-- C1: the claimed aggregate bounds fail on the code.  Starting from the
state reached by enrolling in a one-leaf course and completing its only leaf,
calling `updateSubModuleProgress` for a key absent from the index (which the
code handles by defensive creation) yields `completedModules = 2 >
totalModules = 1` and `progress = 200 > 100`: the percentage is not clamped,
contradicting the claim and the user schema's `min: 0, max: 100` bound on
`progress`. -/
theorem c1_aggregate_bounds_violated :
    (updateSubModuleProgressEnr c1Enr "m1" "s2" 7).1.progress = 200 ∧
    (updateSubModuleProgressEnr c1Enr "m1" "s2" 7).1.completedModules = 2 ∧
    (updateSubModuleProgressEnr c1Enr "m1" "s2" 7).1.totalModules = 1 := by
  decide

/-- C10: the per-user enrollment state produced by the reconciliation step of
`updateUserProgressForCourseChange` does not depend on the `oldIndexing`
argument: the old-index map is built but never consulted. -/
theorem c10_old_index_irrelevant (old1 old2 newIndexing : Indexing) (enr : Enrollment)
    (now : Nat) :
    updateEnrollmentForCourseChange old1 newIndexing enr now =
      updateEnrollmentForCourseChange old2 newIndexing enr now := rfl

/-- C2 counterexample: reconciling an enrollment whose only entry is an
archived completed entry for a leaf that is present in the target indexing
leaves that entry archived and creates no fresh entry, so the active key set
(empty) differs from the target key set. -/
theorem c2_counterexample :
    ¬ (∀ k, k ∈ activeKeys (updateEnrollmentForCourseChange emptyIdx targetMS archEnr 9) ↔
        k ∈ targetKeys targetMS) := by
  intro h
  exact absurd ((h ("m", "s")).mpr (by decide)) (by decide)

/-- C3 counterexample: with two enrolled users of which only user 1's
`save()` resolves, the batch driver rejects as a whole (no result object, no
`usersFailed` report is ever produced), even though user 1's update was
persisted independently. -/
theorem c3_counterexample :
    (updateUsersForCourseChange emptyIdx targetMS [c3U1, c3U2] c3SaveOk 5).2 =
      Except.error "save failed" ∧
    (updateUsersForCourseChange emptyIdx targetMS [c3U1, c3U2] c3SaveOk 5).1 =
      [applyCourseChange emptyIdx targetMS 5 c3U1, c3U2] := by
  constructor
  · rfl
  · rfl

/-- C3 amended: when at least one user's save fails, the batch call rejects
as a whole (so no `usersUpdated`/`usersFailed` report is produced at all),
but the saves are independent: every user whose own save succeeds still has
its reconciled state persisted, and no other user is rolled back. -/
theorem c3_amended_batch_failure (oldIndexing newIndexing : Indexing) (users : List CUser)
    (saveOk : Nat → Bool) (now : Nat) (h : ∃ u ∈ users, saveOk u.uid = false) :
    (updateUsersForCourseChange oldIndexing newIndexing users saveOk now).2 =
      Except.error "save failed" ∧
    (updateUsersForCourseChange oldIndexing newIndexing users saveOk now).1 =
      users.map (fun u =>
        if saveOk u.uid then applyCourseChange oldIndexing newIndexing now u else u) := by
  obtain ⟨u, hu, hfail⟩ := h
  have hne : ¬ users.length = 0 := by
    cases users with
    | nil => cases hu
    | cons a l => simp
  have hall : users.all (fun u => saveOk u.uid) = false := by
    rw [List.all_eq_false]
    exact ⟨u, hu, by simp [hfail]⟩
  constructor
  · simp [updateUsersForCourseChange, hne, hall]
  · simp [updateUsersForCourseChange, hne, hall]

/-- Witness for the amended C3 at a concrete two-user batch in which only
user 2's save fails. -/
theorem c3_amended_batch_failure_witness :
    (∃ u ∈ [c3U1, c3U2], c3SaveOk u.uid = false) ∧
    ((updateUsersForCourseChange emptyIdx targetMS [c3U1, c3U2] c3SaveOk 5).2 =
        Except.error "save failed" ∧
      (updateUsersForCourseChange emptyIdx targetMS [c3U1, c3U2] c3SaveOk 5).1 =
        [c3U1, c3U2].map (fun u =>
          if c3SaveOk u.uid then applyCourseChange emptyIdx targetMS 5 u else u)) :=
  ⟨by decide, c3_amended_batch_failure emptyIdx targetMS [c3U1, c3U2] c3SaveOk 5 (by decide)⟩

/-- A key-preserving entry transformation does not change which entry the
key lookup finds; the found entry is transformed. -/
theorem find?_updateFirst {f : ProgressEntry → ProgressEntry} (m s : String)
    (hf : ∀ p, (f p).moduleId = p.moduleId ∧ (f p).subModuleId = p.subModuleId)
    (l : List ProgressEntry) :
    (updateFirst f m s l).find? (fun p => markKey p m s) =
      (l.find? (fun p => markKey p m s)).map f := by
  induction l with
  | nil => simp [updateFirst]
  | cons p ps ih =>
    have hkey : markKey (f p) m s = markKey p m s := by
      simp [markKey, (hf p).1, (hf p).2]
    by_cases h : markKey p m s = true
    · have h2 : markKey (f p) m s = true := by rw [hkey]; exact h
      rw [updateFirst, if_pos h]
      simp [List.find?_cons, h, h2]
    · rw [Bool.not_eq_true] at h
      rw [updateFirst, if_neg (by simp [h])]
      simp [List.find?_cons, h, ih]

/-- After one `updateSubModuleProgress` call the entry for the key exists
and is completed. -/
theorem exists_completed_after_mark (enr : Enrollment) (m s : String) (now : Nat) :
    ∃ q, (updateSubModuleProgressEnr enr m s now).1.moduleProgress.find?
        (fun p => markKey p m s) = some q ∧ q.completed = true := by
  have hlv : ∀ p : ProgressEntry,
      ((fun (p : ProgressEntry) => { p with lastVisited := some now }) p).moduleId = p.moduleId ∧
      ((fun (p : ProgressEntry) => { p with lastVisited := some now }) p).subModuleId
        = p.subModuleId :=
    fun p => ⟨rfl, rfl⟩
  have hg : ∀ p : ProgressEntry,
      ((fun (p : ProgressEntry) =>
        { p with completed := true, completedAt := some now }) p).moduleId = p.moduleId ∧
      ((fun (p : ProgressEntry) =>
        { p with completed := true, completedAt := some now }) p).subModuleId = p.subModuleId :=
    fun p => ⟨rfl, rfl⟩
  unfold updateSubModuleProgressEnr
  cases hfind : enr.moduleProgress.find? (fun p => markKey p m s) with
  | some e =>
    by_cases hc : e.completed = true
    · refine ⟨{ e with lastVisited := some now }, ?_, hc⟩
      simp only [hfind, hc, if_true]
      rw [find?_updateFirst m s hlv, hfind, Option.map_some', hc]
    · refine ⟨{ e with completed := true, completedAt := some now, lastVisited := some now },
        ?_, rfl⟩
      simp only [hfind, hc, if_false, Bool.false_eq_true]
      rw [find?_updateFirst m s hlv, find?_updateFirst m s hg, hfind]
      rfl
  | none =>
    refine ⟨{ moduleId := m, subModuleId := s, completed := true, completedAt := some now, lastVisited := some now, archived := false, archivedAt := none }, ?_, rfl⟩
    simp only [hfind, Bool.false_eq_true, if_false]
    rw [find?_updateFirst m s hlv, find?_updateFirst m s hg, List.find?_append, hfind]
    simp [markKey]

/-- C7: calling the completion mutator a second time on the same leaf leaves
`progress`, `completedModules` and `totalModules` exactly as after the first
call; the second call only rewrites `lastVisited` of the key's entry and the
enrollment's `lastAccessed`, and returns the stored aggregates (so
`completedAt` is set only on the first transition). -/
theorem c7_mark_complete_idempotent (enr : Enrollment) (m s : String) (t1 t2 : Nat) :
    (updateSubModuleProgressEnr (updateSubModuleProgressEnr enr m s t1).1 m s t2).1 =
      { (updateSubModuleProgressEnr enr m s t1).1 with
        moduleProgress := updateFirst (fun p => { p with lastVisited := some t2 }) m s
          (updateSubModuleProgressEnr enr m s t1).1.moduleProgress,
        lastAccessed := t2 } ∧
    (updateSubModuleProgressEnr (updateSubModuleProgressEnr enr m s t1).1 m s t2).2 =
      { progress := (updateSubModuleProgressEnr enr m s t1).1.progress,
        completedModules := (updateSubModuleProgressEnr enr m s t1).1.completedModules,
        totalModules := (updateSubModuleProgressEnr enr m s t1).1.totalModules,
        subModuleCompleted := true } := by
  obtain ⟨q, hq, hqc⟩ := exists_completed_after_mark enr m s t1
  constructor
  · conv_lhs => rw [updateSubModuleProgressEnr]
    simp only [hq, hqc, if_true]
  · conv_lhs => rw [updateSubModuleProgressEnr]
    simp only [hq, hqc, if_true]

/-- Re-running the submodule indexing pass over its own output changes nothing:
all ids are already assigned and the positional orders are recomputed equal. -/
theorem indexSubModules_idem (cid : String) (mo : Nat) (mid mt : String) :
    ∀ (subs : List SubModule) (j : Nat),
      indexSubModules cid mo mid mt (indexSubModules cid mo mid mt subs j).1 j =
        indexSubModules cid mo mid mt subs j := by
  intro subs
  induction subs with
  | nil => intro j; rfl
  | cons sm rest ih =>
    intro j
    simp only [indexSubModules, Option.getD_some]
    rw [ih (j + 1)]

/-- The module indexing pass preserves the length of the module list. -/
theorem indexModules_fst_length (cid : String) :
    ∀ (ms : List Module) (i : Nat), (indexModules cid ms i).1.length = ms.length := by
  intro ms
  induction ms with
  | nil => intro i; rfl
  | cons m rest ih => intro i; simp only [indexModules, List.length_cons, ih]

/-- Re-running the module indexing pass over its own output changes nothing. -/
theorem indexModules_idem (cid : String) :
    ∀ (ms : List Module) (i : Nat),
      indexModules cid (indexModules cid ms i).1 i = indexModules cid ms i := by
  intro ms
  induction ms with
  | nil => intro i; rfl
  | cons m rest ih =>
    intro i
    simp only [indexModules, Option.getD_some]
    rw [indexSubModules_idem, ih (i + 1)]

/-- C5: indexing is idempotent and deterministic.  Running
`indexCourseModules` on the course produced by a first run yields exactly the
first run's output again: the same updated course, the same leaf-descriptor
list (ids and order included) and the same `totalModules`/`totalSubModules`. -/
theorem c5_indexing_idempotent (course : Course) :
    indexCourseModules (indexCourseModules course).1 = indexCourseModules course := by
  cases hm : course.modules with
  | none => simp [indexCourseModules, hm]
  | some ms =>
    simp only [indexCourseModules, hm]
    simp only [indexModules_idem, indexModules_fst_length]

/-- Decimal digit characters are never an underscore. -/
theorem digitChar_ne_underscore {m : Nat} (h : m < 10) : Nat.digitChar m ≠ '_' := by
  interval_cases m <;> decide

/-- No character produced by the base-10 digit printer is an underscore. -/
theorem toDigitsCore_no_underscore :
    ∀ (f : Nat), ∀ (n : Nat) (ds : List Char), (∀ c ∈ ds, c ≠ '_') →
      ∀ c ∈ Nat.toDigitsCore 10 f n ds, c ≠ '_' := by
  intro f
  induction f with
  | zero => intro n ds hds c hc; exact hds c hc
  | succ f ih =>
    intro n ds hds c hc
    simp only [Nat.toDigitsCore] at hc
    by_cases h : n / 10 = 0
    · rw [if_pos h] at hc
      cases List.mem_cons.mp hc with
      | inl he =>
        rw [he]
        exact digitChar_ne_underscore (Nat.mod_lt n (by omega))
      | inr hm => exact hds c hm
    · rw [if_neg h] at hc
      refine ih (n / 10) (Nat.digitChar (n % 10) :: ds) ?_ c hc
      intro c2 hc2
      cases List.mem_cons.mp hc2 with
      | inl he =>
        rw [he]
        exact digitChar_ne_underscore (Nat.mod_lt n (by omega))
      | inr hm => exact hds c2 hm

/-- The decimal representation of a natural number contains no underscore. -/
theorem repr_no_underscore (n : Nat) : ∀ c ∈ (Nat.repr n).data, c ≠ '_' := by
  have hdata : (Nat.repr n).data = Nat.toDigitsCore 10 (n + 1) n [] := rfl
  rw [hdata]
  exact toDigitsCore_no_underscore (n + 1) n [] (by intro c hc; cases hc)

/-- The digit printer's accumulator is simply appended to its output. -/
theorem toDigitsCore_acc (f : Nat) : ∀ (n : Nat) (ds : List Char),
    Nat.toDigitsCore 10 f n ds = Nat.toDigitsCore 10 f n [] ++ ds := by
  induction f with
  | zero => intro n ds; rfl
  | succ f ih =>
    intro n ds
    simp only [Nat.toDigitsCore]
    by_cases h : n / 10 = 0
    · rw [if_pos h, if_pos h]
      rfl
    · rw [if_neg h, if_neg h, ih (n / 10) (Nat.digitChar (n % 10) :: ds),
        ih (n / 10) (Nat.digitChar (n % 10) :: [])]
      simp [List.append_assoc]

/-- The digit printer's output does not depend on the fuel, as long as the
fuel exceeds the number being printed. -/
theorem toDigitsCore_fuel : ∀ (f g n : Nat) (ds : List Char), n < f → n < g →
    Nat.toDigitsCore 10 f n ds = Nat.toDigitsCore 10 g n ds := by
  intro f
  induction f with
  | zero => intro g n ds hf; exact absurd hf (Nat.not_lt_zero n)
  | succ f ih =>
    intro g n ds hf hg
    cases g with
    | zero => exact absurd hg (Nat.not_lt_zero n)
    | succ g =>
      simp only [Nat.toDigitsCore]
      by_cases h : n / 10 = 0
      · rw [if_pos h, if_pos h]
      · rw [if_neg h, if_neg h]
        have hn : 0 < n := by
          rcases Nat.eq_zero_or_pos n with h0 | h0
          · exact absurd (by rw [h0]) h
          · exact h0
        have hdiv : n / 10 < n := Nat.div_lt_self hn (by omega)
        exact ih g (n / 10) (Nat.digitChar (n % 10) :: ds) (by omega) (by omega)

/-- Evaluating `digitsToNat` across an append processes the two parts in turn. -/
theorem digitsToNat_append (xs ys : List Char) :
    ∀ acc, digitsToNat (xs ++ ys) acc = digitsToNat ys (digitsToNat xs acc) := by
  induction xs with
  | nil => intro acc; rfl
  | cons c cs ih =>
    intro acc
    simp only [List.cons_append, digitsToNat]
    exact ih _

/-- The numeric value of a decimal digit character. -/
theorem digitChar_val {m : Nat} (h : m < 10) : (Nat.digitChar m).toNat - 48 = m := by
  interval_cases m <;> decide

/-- Reading back the decimal digits of `n` on top of an accumulator recovers
`n` shifted under the accumulator. -/
theorem toDigits_val (n : Nat) : ∀ acc,
    digitsToNat (Nat.toDigits 10 n) acc = acc * 10 ^ (Nat.toDigits 10 n).length + n := by
  induction n using Nat.strong_induction_on with
  | _ n ih =>
    intro acc
    by_cases h : n / 10 = 0
    · have hd : Nat.toDigits 10 n = [Nat.digitChar (n % 10)] := by
        simp only [Nat.toDigits, Nat.toDigitsCore, h, if_pos]
      rw [hd]
      simp only [digitsToNat, List.length_cons, List.length_nil]
      rw [digitChar_val (Nat.mod_lt n (by omega))]
      have hmod : n % 10 = n := by omega
      rw [hmod, pow_one]
    · have hn : 0 < n := by
        rcases Nat.eq_zero_or_pos n with h0 | h0
        · exact absurd (by rw [h0]) h
        · exact h0
      have hdiv : n / 10 < n := Nat.div_lt_self hn (by omega)
      have hd : Nat.toDigits 10 n = Nat.toDigits 10 (n / 10) ++ [Nat.digitChar (n % 10)] := by
        show Nat.toDigitsCore 10 (n + 1) n [] = _
        simp only [Nat.toDigitsCore]
        rw [if_neg h, toDigitsCore_acc n (n / 10) (Nat.digitChar (n % 10) :: []),
          toDigitsCore_fuel n (n / 10 + 1) (n / 10) [] (by omega) (Nat.lt_succ_self _)]
        rfl
      rw [hd, digitsToNat_append]
      simp only [digitsToNat]
      rw [ih (n / 10) hdiv acc, digitChar_val (Nat.mod_lt n (by omega))]
      rw [List.length_append, List.length_cons, List.length_nil]
      have hrec : 10 * (n / 10) + n % 10 = n := Nat.div_add_mod n 10
      calc (acc * 10 ^ (Nat.toDigits 10 (n / 10)).length + n / 10) * 10 + n % 10
          = acc * (10 ^ (Nat.toDigits 10 (n / 10)).length * 10) + (10 * (n / 10) + n % 10) := by
            ring
        _ = acc * 10 ^ ((Nat.toDigits 10 (n / 10)).length + (0 + 1)) + n := by
            rw [hrec, Nat.zero_add, pow_succ]

/-- Decimal printing of naturals is injective (on the character lists). -/
theorem repr_data_inj {a b : Nat} (h : (Nat.repr a).data = (Nat.repr b).data) : a = b := by
  have hs : Nat.toDigits 10 a = Nat.toDigits 10 b := h
  have va := toDigits_val a 0
  have vb := toDigits_val b 0
  rw [hs] at va
  simp only [Nat.zero_mul, Nat.zero_add] at va vb
  exact va.symm.trans vb

/-- Splitting an equality of character lists at the first separator: if two
underscore-free blocks are followed by an underscore, the blocks and the
tails agree separately. -/
theorem append_sep_inj : ∀ (xs ys zs ws : List Char), (∀ c ∈ xs, c ≠ '_') →
    (∀ c ∈ ys, c ≠ '_') → xs ++ '_' :: zs = ys ++ '_' :: ws → xs = ys ∧ zs = ws := by
  intro xs
  induction xs with
  | nil =>
    intro ys zs ws _ hy h
    cases ys with
    | nil =>
      refine ⟨rfl, ?_⟩
      injection h
    | cons y ys2 =>
      exfalso
      injection h with h1 h2
      exact hy y (List.mem_cons_self y ys2) h1.symm
  | cons x xs2 ih =>
    intro ys zs ws hx hy h
    cases ys with
    | nil =>
      exfalso
      injection h with h1 h2
      exact hx x (List.mem_cons_self x xs2) h1
    | cons y ys2 =>
      injection h with h1 h2
      obtain ⟨hA, hB⟩ := ih ys2 zs ws (fun c hc => hx c (List.mem_cons_of_mem _ hc))
        (fun c hc => hy c (List.mem_cons_of_mem _ hc)) h2
      exact ⟨by rw [h1, hA], hB⟩

/-- Generated submodule ids determine their module and submodule ordinals. -/
theorem generateSubModuleId_inj {cid : String} {a b a2 b2 : Nat}
    (h : generateSubModuleId cid a b = generateSubModuleId cid a2 b2) : a = a2 ∧ b = b2 := by
  have hd := congrArg String.data h
  simp only [generateSubModuleId, String.data_append, List.append_assoc] at hd
  have hd2 := List.append_cancel_left hd
  simp only [List.cons_append, List.nil_append, List.cons.injEq, true_and] at hd2
  have hd3 : (Nat.repr a).data ++ '_' :: ('s' :: 'u' :: 'b' :: '_' :: (Nat.repr b).data) =
      (Nat.repr a2).data ++ '_' :: ('s' :: 'u' :: 'b' :: '_' :: (Nat.repr b2).data) := hd2
  obtain ⟨hA, hB⟩ := append_sep_inj (Nat.repr a).data (Nat.repr a2).data _ _
    (repr_no_underscore a) (repr_no_underscore a2) hd3
  simp only [List.cons.injEq, true_and] at hB
  exact ⟨repr_data_inj hA, repr_data_inj hB⟩

/-- With no pinned submodule ids, every leaf id emitted for one module is a
generated id whose submodule ordinal exceeds the starting position. -/
theorem indexSubModules_ids (cid : String) (mo : Nat) (mid mt : String) :
    ∀ (subs : List SubModule) (j : Nat), (∀ sm ∈ subs, sm.id = none) →
      ∀ d ∈ (indexSubModules cid mo mid mt subs j).2,
        ∃ k, j < k ∧ d.subModuleId = generateSubModuleId cid mo k := by
  intro subs
  induction subs with
  | nil => intro j h d hd; cases hd
  | cons sm rest ih =>
    intro j h d hd
    have hsm : sm.id = none := h sm (List.mem_cons_self sm rest)
    simp only [indexSubModules, hsm, Option.getD_none] at hd
    cases List.mem_cons.mp hd with
    | inl he => exact ⟨j + 1, Nat.lt_succ_self j, by rw [he]⟩
    | inr hm =>
      obtain ⟨k, hk, he⟩ := ih (j + 1) (fun x hx => h x (List.mem_cons_of_mem _ hx)) d hm
      exact ⟨k, by omega, he⟩

/-- With no pinned submodule ids, the leaf ids emitted for one module are
pairwise distinct. -/
theorem indexSubModules_ids_nodup (cid : String) (mo : Nat) (mid mt : String) :
    ∀ (subs : List SubModule) (j : Nat), (∀ sm ∈ subs, sm.id = none) →
      ((indexSubModules cid mo mid mt subs j).2.map (fun d => d.subModuleId)).Nodup := by
  intro subs
  induction subs with
  | nil => intro j h; simp [indexSubModules]
  | cons sm rest ih =>
    intro j h
    have hsm : sm.id = none := h sm (List.mem_cons_self sm rest)
    have hrest : ∀ x ∈ rest, x.id = none := fun x hx => h x (List.mem_cons_of_mem _ hx)
    simp only [indexSubModules, hsm, Option.getD_none, List.map_cons]
    rw [List.nodup_cons]
    constructor
    · intro hmem
      obtain ⟨d, hd, he⟩ := List.mem_map.mp hmem
      obtain ⟨k, hk, hid⟩ := indexSubModules_ids cid mo mid mt rest (j + 1) hrest d hd
      rw [hid] at he
      have := (generateSubModuleId_inj he).2
      omega
    · exact ih (j + 1) hrest

/-- With no pinned submodule ids, every leaf id emitted by the module pass is
a generated id whose module ordinal exceeds the starting position. -/
theorem indexModules_ids (cid : String) :
    ∀ (ms : List Module) (i : Nat),
      (∀ m ∈ ms, ∀ sm ∈ m.subModules.getD [], sm.id = none) →
      ∀ d ∈ (indexModules cid ms i).2,
        ∃ a k, i < a ∧ d.subModuleId = generateSubModuleId cid a k := by
  intro ms
  induction ms with
  | nil => intro i h d hd; cases hd
  | cons m rest ih =>
    intro i h d hd
    simp only [indexModules] at hd
    cases List.mem_append.mp hd with
    | inl h1 =>
      obtain ⟨k, hk, he⟩ := indexSubModules_ids cid (i + 1) _ _ (m.subModules.getD []) 0
        (h m (List.mem_cons_self m rest)) d h1
      exact ⟨i + 1, k, Nat.lt_succ_self i, he⟩
    | inr h2 =>
      obtain ⟨a, k, ha, he⟩ := ih (i + 1) (fun x hx => h x (List.mem_cons_of_mem _ hx)) d h2
      exact ⟨a, k, by omega, he⟩

/-- With no pinned submodule ids, the full leaf-id list of the module pass is
pairwise distinct. -/
theorem indexModules_ids_nodup (cid : String) :
    ∀ (ms : List Module) (i : Nat),
      (∀ m ∈ ms, ∀ sm ∈ m.subModules.getD [], sm.id = none) →
      ((indexModules cid ms i).2.map (fun d => d.subModuleId)).Nodup := by
  intro ms
  induction ms with
  | nil => intro i h; simp [indexModules]
  | cons m rest ih =>
    intro i h
    have hm : ∀ sm ∈ m.subModules.getD [], sm.id = none := h m (List.mem_cons_self m rest)
    have hrest : ∀ x ∈ rest, ∀ sm ∈ x.subModules.getD [], sm.id = none :=
      fun x hx => h x (List.mem_cons_of_mem _ hx)
    simp only [indexModules, List.map_append]
    refine List.Nodup.append
      (indexSubModules_ids_nodup cid (i + 1) _ _ (m.subModules.getD []) 0 hm)
      (ih (i + 1) hrest) ?_
    intro x hx1 hx2
    obtain ⟨d1, hd1, he1⟩ := List.mem_map.mp hx1
    obtain ⟨k1, hk1, hid1⟩ := indexSubModules_ids cid (i + 1) _ _ (m.subModules.getD []) 0 hm d1 hd1
    obtain ⟨d2, hd2, he2⟩ := List.mem_map.mp hx2
    obtain ⟨a, k2, ha, hid2⟩ := indexModules_ids cid rest (i + 1) hrest d2 hd2
    have hx12 : generateSubModuleId cid (i + 1) k1 = generateSubModuleId cid a k2 := by
      rw [← hid1, ← hid2, he1, he2]
    have := (generateSubModuleId_inj hx12).1
    omega

/-- C6 counterexample: when two submodules carry the same author-pinned
explicit id, a single indexing pass emits two leaves with the same leaf id. -/
theorem c6_counterexample :
    ¬ ((indexCourseModules c6Course).2.indexed.map (fun d => d.subModuleId)).Nodup := by
  decide

/-- C6 amended: if no submodule carries an explicit (author-pinned) id, the
flat leaf-descriptor list produced by a single indexing pass contains no two
leaves with the same leaf id. -/
theorem c6_unpinned_leaf_ids_nodup (course : Course)
    (h : ∀ m ∈ course.modules.getD [], ∀ sm ∈ m.subModules.getD [], sm.id = none) :
    ((indexCourseModules course).2.indexed.map (fun d => d.subModuleId)).Nodup := by
  cases hm : course.modules with
  | none => simp [indexCourseModules, hm]
  | some ms =>
    simp only [indexCourseModules, hm]
    refine indexModules_ids_nodup course._id ms 0 ?_
    rw [hm] at h
    simpa using h

/-- Witness for the amended C6 at a concrete unpinned two-module course. -/
theorem c6_unpinned_leaf_ids_nodup_witness :
    (∀ m ∈ c6WCourse.modules.getD [], ∀ sm ∈ m.subModules.getD [], sm.id = none) ∧
    ((indexCourseModules c6WCourse).2.indexed.map (fun d => d.subModuleId)).Nodup :=
  ⟨by decide, c6_unpinned_leaf_ids_nodup c6WCourse (by decide)⟩

/-- String-list `contains` agrees with membership. -/
theorem contains_iff_mem {l : List String} {a : String} : l.contains a = true ↔ a ∈ l := by
  rw [List.contains_iff_exists_mem_beq]
  constructor
  · rintro ⟨a2, h2, hbeq⟩
    rw [eq_of_beq hbeq]
    exact h2
  · intro h
    exact ⟨a, h, by simp⟩

/-- C2 amended: after reconciliation the `(moduleID, leafID)` keys of the
active entries are exactly the target leaf keys, provided that no archived
current entry carries a leaf id still present in the target (the code keeps
such an entry archived and creates no replacement) and that current entries
agree with the target on the `moduleID` attached to a shared leaf id (the
code matches entries by leaf id alone). -/
theorem c2_active_keys_eq_target (oldIndexing newIndexing : Indexing)
    (enr : Enrollment) (now : Nat)
    (hArch : ∀ p ∈ enr.moduleProgress, p.archived = true →
      ∀ it ∈ newIndexing.indexed, p.subModuleId ≠ it.subModuleId)
    (hMod : ∀ p ∈ enr.moduleProgress, ∀ it ∈ newIndexing.indexed,
      p.subModuleId = it.subModuleId → p.moduleId = it.moduleId) :
    ∀ k, k ∈ activeKeys (updateEnrollmentForCourseChange oldIndexing newIndexing enr now) ↔
      k ∈ targetKeys newIndexing := by
  intro k
  have hMP : (updateEnrollmentForCourseChange oldIndexing newIndexing enr now).moduleProgress =
      enr.moduleProgress.filterMap (fun p =>
        if (newIndexing.indexed.map (fun item => item.subModuleId)).contains p.subModuleId then
          some p
        else if p.completed then some { p with archived := true, archivedAt := some now }
        else none) ++
      newIndexing.indexed.filterMap (fun item =>
        if (enr.moduleProgress.filterMap (fun p =>
            if (newIndexing.indexed.map (fun item => item.subModuleId)).contains p.subModuleId
            then some p.subModuleId else none)).contains item.subModuleId then none
        else some { moduleId := item.moduleId, subModuleId := item.subModuleId,
                    completed := false, completedAt := none, lastVisited := none,
                    archived := false, archivedAt := none }) := rfl
  constructor
  · intro hk
    simp only [activeKeys, hMP] at hk
    obtain ⟨q, hq, hkq⟩ := List.mem_map.mp hk
    rw [List.mem_filter] at hq
    obtain ⟨hqmem, hqact⟩ := hq
    rw [List.mem_append] at hqmem
    cases hqmem with
    | inl h1 =>
      obtain ⟨p, hp, hpq⟩ := List.mem_filterMap.mp h1
      by_cases hc :
          (newIndexing.indexed.map (fun item => item.subModuleId)).contains p.subModuleId = true
      · rw [if_pos hc] at hpq
        injection hpq with hpq2
        obtain ⟨it, hit, hitid⟩ := List.mem_map.mp (contains_iff_mem.mp hc)
        have hm := hMod p hp it hit hitid.symm
        refine List.mem_map.mpr ⟨it, hit, ?_⟩
        rw [← hkq, ← hpq2]
        simp [hm, hitid]
      · rw [if_neg hc] at hpq
        by_cases hcomp : p.completed = true
        · rw [if_pos hcomp] at hpq
          injection hpq with hpq2
          rw [← hpq2] at hqact
          simp at hqact
        · rw [if_neg hcomp] at hpq
          cases hpq
    | inr h2 =>
      obtain ⟨it, hit, hitq⟩ := List.mem_filterMap.mp h2
      by_cases hpres : (enr.moduleProgress.filterMap (fun p =>
          if (newIndexing.indexed.map (fun item => item.subModuleId)).contains p.subModuleId
          then some p.subModuleId else none)).contains it.subModuleId = true
      · rw [if_pos hpres] at hitq
        cases hitq
      · rw [if_neg hpres] at hitq
        injection hitq with hitq2
        refine List.mem_map.mpr ⟨it, hit, ?_⟩
        rw [← hkq, ← hitq2]
  · intro hk
    obtain ⟨it, hit, hkit⟩ := List.mem_map.mp hk
    simp only [activeKeys, hMP]
    by_cases hex : ∃ p ∈ enr.moduleProgress, p.subModuleId = it.subModuleId
    · obtain ⟨p, hp, hpid⟩ := hex
      have hcont :
          (newIndexing.indexed.map (fun item => item.subModuleId)).contains p.subModuleId = true :=
        contains_iff_mem.mpr (List.mem_map.mpr ⟨it, hit, hpid.symm⟩)
      have hpact : p.archived = false := by
        cases harch : p.archived with
        | false => rfl
        | true => exact absurd hpid (hArch p hp harch it hit)
      refine List.mem_map.mpr ⟨p, ?_, ?_⟩
      · rw [List.mem_filter]
        refine ⟨List.mem_append_left _ (List.mem_filterMap.mpr ⟨p, hp, by rw [if_pos hcont]⟩), ?_⟩
        simp [hpact]
      · have hm := hMod p hp it hit hpid
        rw [← hkit]
        simp [hm, hpid]
    · have hnpres : (enr.moduleProgress.filterMap (fun p =>
          if (newIndexing.indexed.map (fun item => item.subModuleId)).contains p.subModuleId
          then some p.subModuleId else none)).contains it.subModuleId = false := by
        rw [Bool.eq_false_iff]
        intro hcc
        obtain ⟨p, hp, hpeq⟩ := List.mem_filterMap.mp (contains_iff_mem.mp hcc)
        by_cases hc2 :
            (newIndexing.indexed.map (fun item => item.subModuleId)).contains p.subModuleId = true
        · rw [if_pos hc2] at hpeq
          injection hpeq with hpeq2
          exact hex ⟨p, hp, hpeq2⟩
        · rw [if_neg hc2] at hpeq
          cases hpeq
      refine List.mem_map.mpr
        ⟨{ moduleId := it.moduleId, subModuleId := it.subModuleId, completed := false,
           completedAt := none, lastVisited := none, archived := false, archivedAt := none },
         ?_, ?_⟩
      · rw [List.mem_filter]
        refine ⟨List.mem_append_right _
          (List.mem_filterMap.mpr ⟨it, hit,
            by rw [if_neg (by rw [hnpres]; exact Bool.false_ne_true)]⟩), by simp⟩
      · rw [← hkit]

/-- Witness for the amended C2 at a concrete enrollment holding one active
completed entry for the single target leaf. -/
theorem c2_active_keys_eq_target_witness :
    (∀ p ∈ c2WitEnr.moduleProgress, p.archived = true →
      ∀ it ∈ targetMS.indexed, p.subModuleId ≠ it.subModuleId) ∧
    (∀ p ∈ c2WitEnr.moduleProgress, ∀ it ∈ targetMS.indexed,
      p.subModuleId = it.subModuleId → p.moduleId = it.moduleId) ∧
    (("m", "s") ∈ activeKeys (updateEnrollmentForCourseChange emptyIdx targetMS c2WitEnr 9) ↔
      ("m", "s") ∈ targetKeys targetMS) :=
  ⟨by decide, by decide,
    c2_active_keys_eq_target emptyIdx targetMS c2WitEnr 9 (by decide) (by decide) ("m", "s")⟩

/-- C4: reconciliation keeps a stale completed entry with `archived = true`
and `archivedAt = now` and drops stale incomplete entries (every surviving
stale-keyed entry is completed, archived and stamped with `now`); an entry of
the result is archived only if it was completed (given the same invariant on
the input); and the recomputed aggregates exclude archived entries
(`completedModules` counts only active completed entries, `totalModules` is
the target leaf count). -/
theorem c4_archive_behavior (oldIndexing newIndexing : Indexing) (enr : Enrollment) (now : Nat)
    (hInv : ∀ p ∈ enr.moduleProgress, p.archived = true → p.completed = true) :
    (∀ p ∈ enr.moduleProgress,
      p.subModuleId ∉ newIndexing.indexed.map (fun item => item.subModuleId) →
      p.completed = true →
      { p with archived := true, archivedAt := some now } ∈
        (updateEnrollmentForCourseChange oldIndexing newIndexing enr now).moduleProgress) ∧
    (∀ q ∈ (updateEnrollmentForCourseChange oldIndexing newIndexing enr now).moduleProgress,
      q.subModuleId ∉ newIndexing.indexed.map (fun item => item.subModuleId) →
      q.completed = true ∧ q.archived = true ∧ q.archivedAt = some now) ∧
    (∀ q ∈ (updateEnrollmentForCourseChange oldIndexing newIndexing enr now).moduleProgress,
      q.archived = true → q.completed = true) ∧
    ((updateEnrollmentForCourseChange oldIndexing newIndexing enr now).completedModules =
      ((updateEnrollmentForCourseChange oldIndexing newIndexing enr now).moduleProgress.filter
        (fun p => p.completed && !p.archived)).length) ∧
    ((updateEnrollmentForCourseChange oldIndexing newIndexing enr now).totalModules =
      newIndexing.totalSubModules) := by
  have hMP : (updateEnrollmentForCourseChange oldIndexing newIndexing enr now).moduleProgress =
      enr.moduleProgress.filterMap (fun p =>
        if (newIndexing.indexed.map (fun item => item.subModuleId)).contains p.subModuleId then
          some p
        else if p.completed then some { p with archived := true, archivedAt := some now }
        else none) ++
      newIndexing.indexed.filterMap (fun item =>
        if (enr.moduleProgress.filterMap (fun p =>
            if (newIndexing.indexed.map (fun item => item.subModuleId)).contains p.subModuleId
            then some p.subModuleId else none)).contains item.subModuleId then none
        else some { moduleId := item.moduleId, subModuleId := item.subModuleId,
                    completed := false, completedAt := none, lastVisited := none,
                    archived := false, archivedAt := none }) := rfl
  refine ⟨?_, ?_, ?_, rfl, rfl⟩
  · intro p hp hnotin hcomp
    rw [hMP]
    refine List.mem_append_left _ (List.mem_filterMap.mpr ⟨p, hp, ?_⟩)
    rw [if_neg (fun hc => hnotin (contains_iff_mem.mp hc)), if_pos hcomp]
  · intro q hq hnotin
    rw [hMP, List.mem_append] at hq
    cases hq with
    | inl h1 =>
      obtain ⟨p, hp, hpq⟩ := List.mem_filterMap.mp h1
      by_cases hc :
          (newIndexing.indexed.map (fun item => item.subModuleId)).contains p.subModuleId = true
      · rw [if_pos hc] at hpq
        injection hpq with h
        rw [← h] at hnotin
        exact absurd (contains_iff_mem.mp hc) hnotin
      · by_cases hcomp : p.completed = true
        · rw [if_neg hc, if_pos hcomp] at hpq
          injection hpq with h
          rw [← h]
          exact ⟨hcomp, rfl, rfl⟩
        · rw [if_neg hc, if_neg hcomp] at hpq
          cases hpq
    | inr h2 =>
      obtain ⟨it, hit, hitq⟩ := List.mem_filterMap.mp h2
      by_cases hpres : (enr.moduleProgress.filterMap (fun p =>
          if (newIndexing.indexed.map (fun item => item.subModuleId)).contains p.subModuleId
          then some p.subModuleId else none)).contains it.subModuleId = true
      · rw [if_pos hpres] at hitq
        cases hitq
      · rw [if_neg hpres] at hitq
        injection hitq with h
        exfalso
        apply hnotin
        rw [← h]
        exact List.mem_map.mpr ⟨it, hit, rfl⟩
  · intro q hq harch
    rw [hMP, List.mem_append] at hq
    cases hq with
    | inl h1 =>
      obtain ⟨p, hp, hpq⟩ := List.mem_filterMap.mp h1
      by_cases hc :
          (newIndexing.indexed.map (fun item => item.subModuleId)).contains p.subModuleId = true
      · rw [if_pos hc] at hpq
        injection hpq with h
        rw [← h] at harch ⊢
        exact hInv p hp harch
      · by_cases hcomp : p.completed = true
        · rw [if_neg hc, if_pos hcomp] at hpq
          injection hpq with h
          rw [← h]
          exact hcomp
        · rw [if_neg hc, if_neg hcomp] at hpq
          cases hpq
    | inr h2 =>
      obtain ⟨it, hit, hitq⟩ := List.mem_filterMap.mp h2
      by_cases hpres : (enr.moduleProgress.filterMap (fun p =>
          if (newIndexing.indexed.map (fun item => item.subModuleId)).contains p.subModuleId
          then some p.subModuleId else none)).contains it.subModuleId = true
      · rw [if_pos hpres] at hitq
        cases hitq
      · rw [if_neg hpres] at hitq
        injection hitq with h
        rw [← h] at harch
        simp at harch

/-- Witness for C4 at a concrete enrollment whose only entry is a completed
active entry for a leaf absent from the target: the entry survives archived
and stamped with the reconciliation time. -/
theorem c4_archive_behavior_witness :
    (∀ p ∈ c4Enr.moduleProgress, p.archived = true → p.completed = true) ∧
    ({ staleEntry with archived := true, archivedAt := some 9 } ∈
      (updateEnrollmentForCourseChange emptyIdx targetMS c4Enr 9).moduleProgress) :=
  ⟨by decide,
    (c4_archive_behavior emptyIdx targetMS c4Enr 9 (by decide)).1 staleEntry (by decide)
      (by decide) (by decide)⟩

/-- C8: if an enrollment for the pair already exists, `initEnrollmentProgress`
returns the user unchanged together with that enrollment and
`alreadyEnrolled = true`; otherwise it appends the seeded enrollment — whose
`totalModules` comes from the course index, whose `progress` and
`completedModules` are zero, and which has one incomplete entry per indexed
leaf — and returns it with `alreadyEnrolled = false`. -/
theorem c8_enroll_behavior (course : Course) (user : User) (courseId : String) (now : Nat) :
    (∀ ex, user.enrollments.find? (fun e => e.course == courseId) = some ex →
      initEnrollmentProgress (some course) (some user) courseId now =
        Except.ok (user, { alreadyEnrolled := true, enrollment := ex, totalModules := none })) ∧
    (user.enrollments.find? (fun e => e.course == courseId) = none →
      initEnrollmentProgress (some course) (some user) courseId now =
        Except.ok ({ enrollments := user.enrollments ++ [seedEnrollment course courseId now] },
          { alreadyEnrolled := false, enrollment := seedEnrollment course courseId now,
            totalModules := some (indexCourseModules course).2.totalSubModules })) ∧
    ((seedEnrollment course courseId now).progress = 0 ∧
      (seedEnrollment course courseId now).completedModules = 0 ∧
      (seedEnrollment course courseId now).totalModules =
        (indexCourseModules course).2.totalSubModules ∧
      (seedEnrollment course courseId now).moduleProgress.length =
        (indexCourseModules course).2.indexed.length ∧
      ∀ p ∈ (seedEnrollment course courseId now).moduleProgress, p.completed = false) := by
  refine ⟨?_, ?_, rfl, rfl, rfl, by simp [seedEnrollment], ?_⟩
  · intro ex h
    simp only [initEnrollmentProgress, h]
  · intro h
    simp only [initEnrollmentProgress, h, seedEnrollment]
  · intro p hp
    simp only [seedEnrollment] at hp
    obtain ⟨item, _, hip⟩ := List.mem_map.mp hp
    rw [← hip]

/-- Witness for C8: enrolling an already-enrolled user returns the stored
enrollment unchanged, and enrolling a fresh user seeds the indexed course. -/
theorem c8_enroll_behavior_witness :
    (userEnrolledEmpty.enrollments.find? (fun e => e.course == "course1") = some emptyEnr ∧
      initEnrollmentProgress (some c8Course) (some userEnrolledEmpty) "course1" 5 =
        Except.ok (userEnrolledEmpty,
          { alreadyEnrolled := true, enrollment := emptyEnr, totalModules := none })) ∧
    initEnrollmentProgress (some c8Course) (some userNoEnrollments) "course1" 5 =
      Except.ok ({ enrollments := userNoEnrollments.enrollments ++
          [seedEnrollment c8Course "course1" 5] },
        { alreadyEnrolled := false, enrollment := seedEnrollment c8Course "course1" 5,
          totalModules := some (indexCourseModules c8Course).2.totalSubModules }) :=
  ⟨⟨rfl, (c8_enroll_behavior c8Course userEnrolledEmpty "course1" 5).1 emptyEnr rfl⟩,
    (c8_enroll_behavior c8Course userNoEnrollments "course1" 5).2.1 rfl⟩

/-- A successful `find?` result satisfies the predicate (explicit-argument
version usable without relying on unification). -/
theorem find?_pred {α : Type} (p : α → Bool) (l : List α) (a : α)
    (h : l.find? p = some a) : p a = true := List.find?_some h

/-- The completion mutator never changes which course an enrollment references. -/
theorem markEnr_course (enr : Enrollment) (m s : String) (now : Nat) :
    (updateSubModuleProgressEnr enr m s now).1.course = enr.course := by
  unfold updateSubModuleProgressEnr
  cases hfind : enr.moduleProgress.find? (fun p => markKey p m s) with
  | some e =>
    by_cases hc : e.completed = true
    · simp [hc]
    · simp [hc]
  | none => simp

/-- The completion mutator always reports the leaf as completed. -/
theorem markEnr_subModuleCompleted (enr : Enrollment) (m s : String) (now : Nat) :
    (updateSubModuleProgressEnr enr m s now).2.subModuleCompleted = true := by
  unfold updateSubModuleProgressEnr
  cases hfind : enr.moduleProgress.find? (fun p => markKey p m s) with
  | some e =>
    by_cases hc : e.completed = true
    · simp [hc]
    · simp [hc]
  | none => simp

/-- Replacing the found enrollment in place leaves it findable under the same
course key. -/
theorem find?_updateFirstEnr (courseId : String) (x : Enrollment)
    (hx : (x.course == courseId) = true) :
    ∀ (l : List Enrollment) (e : Enrollment),
      l.find? (fun e2 => e2.course == courseId) = some e →
      (updateFirstEnr courseId x l).find? (fun e2 => e2.course == courseId) = some x := by
  intro l
  induction l with
  | nil => intro e h; cases h
  | cons a l ih =>
    intro e h
    by_cases ha : (a.course == courseId) = true
    · rw [updateFirstEnr, if_pos ha]
      simp only [List.find?_cons, hx]
    · rw [Bool.not_eq_true] at ha
      rw [updateFirstEnr, if_neg (by rw [ha]; exact Bool.false_ne_true)]
      simp only [List.find?_cons, ha] at h ⊢
      exact ih e h

/-- C9: with the user present, `updateSubModuleProgress` fails with the
not-enrolled error exactly when the user has no enrollment for the course;
and when an enrollment exists but no progress entry matches the
`(moduleID, leafID)` key, the call succeeds anyway: the entry is created
defensively and reported and stored as completed. -/
theorem c9_not_enrolled_and_defensive_create (user : User) (courseId m s : String) (now : Nat) :
    (user.enrollments.find? (fun e => e.course == courseId) = none →
      updateSubModuleProgress (some user) courseId m s now =
        Except.error "User not enrolled in this course") ∧
    (updateSubModuleProgress (some user) courseId m s now =
        Except.error "User not enrolled in this course" →
      user.enrollments.find? (fun e => e.course == courseId) = none) ∧
    (∀ enr, user.enrollments.find? (fun e => e.course == courseId) = some enr →
      enr.moduleProgress.find? (fun p => markKey p m s) = none →
      ∃ u2 r, updateSubModuleProgress (some user) courseId m s now = Except.ok (u2, r) ∧
        r.subModuleCompleted = true ∧
        ∃ enr2, u2.enrollments.find? (fun e => e.course == courseId) = some enr2 ∧
          ∃ q ∈ enr2.moduleProgress, markKey q m s = true ∧ q.completed = true) := by
  refine ⟨?_, ?_, ?_⟩
  · intro h
    simp only [updateSubModuleProgress, h]
  · intro h
    cases hfind : user.enrollments.find? (fun e => e.course == courseId) with
    | none => rfl
    | some enr =>
      exfalso
      simp only [updateSubModuleProgress, hfind] at h
      exact Except.noConfusion h
  · intro enr hfe hfp
    have heq : updateSubModuleProgress (some user) courseId m s now =
        Except.ok ({ enrollments := updateFirstEnr courseId (updateSubModuleProgressEnr enr m s now).1 user.enrollments }, (updateSubModuleProgressEnr enr m s now).2) := by
      simp only [updateSubModuleProgress, hfe]
    have hpred : ((updateSubModuleProgressEnr enr m s now).1.course == courseId) = true := by
      rw [markEnr_course]
      exact find?_pred (fun e => e.course == courseId) user.enrollments enr hfe
    obtain ⟨q, hq, hqc⟩ := exists_completed_after_mark enr m s now
    have hkey : markKey q m s = true :=
      find?_pred (fun p => markKey p m s) (updateSubModuleProgressEnr enr m s now).1.moduleProgress q hq
    exact ⟨_, _, heq, markEnr_subModuleCompleted enr m s now,
      (updateSubModuleProgressEnr enr m s now).1,
      find?_updateFirstEnr courseId _ hpred user.enrollments enr hfe,
      q, List.mem_of_find?_eq_some hq, hkey, hqc⟩

/-- Witness for C9: a user with no enrollment gets the not-enrolled error,
and an enrolled user with no matching entry gets a defensively created,
completed entry. -/
theorem c9_not_enrolled_and_defensive_create_witness :
    (updateSubModuleProgress (some userNoEnrollments) "course1" "m" "s" 5 =
      Except.error "User not enrolled in this course") ∧
    (∃ u2 r, updateSubModuleProgress (some c9User) "course1" "m" "s" 5 = Except.ok (u2, r) ∧
      r.subModuleCompleted = true ∧
      ∃ enr2, u2.enrollments.find? (fun e => e.course == "course1") = some enr2 ∧
        ∃ q ∈ enr2.moduleProgress, markKey q "m" "s" = true ∧ q.completed = true) :=
  ⟨(c9_not_enrolled_and_defensive_create userNoEnrollments "course1" "m" "s" 5).1 rfl,
    (c9_not_enrolled_and_defensive_create c9User "course1" "m" "s" 5).2.2 c9Enr rfl rfl⟩

end CodeTeach
